import Mathlib

/-!
Verification of the acoustic-modem core of the repository against its
natural-language specification.

The embedded source files are `frequency_hopping.py` (class `FrequencyHopper`)
and `ultrasonic_compression.py` (class `UltrasonicOFDM` and its statistics).
Python integers and byte values are modelled as `Nat` (a byte is a `Nat < 256`),
Python floats whose uses here are exact decimal/ratio arithmetic are modelled
as `Rat`, and waveform samples (values of `math.sin`/`math.cos`) as `Real`.
Python exceptions are modelled with an explicit error type `PyError` and
`Except`; a function that can raise returns `Except PyError _`.
-/

namespace SwlModem

/-- Python exception classes relevant to the embedded code, plus the error
classes the specification names (`ConfigError`, `NyquistViolation`) so that
the two can be compared. -/
inductive PyError where
  | zeroDivision : PyError
  | valueError : PyError
  | keyError : PyError
  | configError : PyError
  | nyquistViolation : PyError
deriving DecidableEq, Repr

/-- Python `int(x)` on a float/rational: truncation toward zero. -/
def pyInt (q : ℚ) : ℤ :=
  if 0 ≤ q then ⌊q⌋ else -⌊-q⌋

/-! ## SHA-256 (the `hashlib.sha256` digest called by `_generate_hop_table`)

A byte string is a `List ℕ` with entries below 256.  This is FIPS 180-4
SHA-256, executable so that concrete hop tables can be evaluated. -/

/-- Truncation of a natural number to 32 bits. -/
def w32 (x : ℕ) : ℕ := x % 4294967296

/-- 32-bit right rotation. -/
def rotr32 (n x : ℕ) : ℕ := w32 ((x >>> n) ||| (x <<< (32 - n)))

/-- 32-bit bitwise complement. -/
def not32 (x : ℕ) : ℕ := 4294967295 - x % 4294967296

def sha256Ch (x y z : ℕ) : ℕ := (x &&& y) ^^^ (not32 x &&& z)

def sha256Maj (x y z : ℕ) : ℕ := (x &&& y) ^^^ (x &&& z) ^^^ (y &&& z)

def bigSigma0 (x : ℕ) : ℕ := rotr32 2 x ^^^ rotr32 13 x ^^^ rotr32 22 x

def bigSigma1 (x : ℕ) : ℕ := rotr32 6 x ^^^ rotr32 11 x ^^^ rotr32 25 x

def smallSigma0 (x : ℕ) : ℕ := rotr32 7 x ^^^ rotr32 18 x ^^^ (x >>> 3)

def smallSigma1 (x : ℕ) : ℕ := rotr32 17 x ^^^ rotr32 19 x ^^^ (x >>> 10)

/-- The 64 SHA-256 round constants. -/
def k256 : List ℕ :=
  [1116352408, 1899447441, 3049323471, 3921009573, 961987163, 1508970993,
   2453635748, 2870763221, 3624381080, 310598401, 607225278, 1426881987,
   1925078388, 2162078206, 2614888103, 3248222580, 3835390401, 4022224774,
   264347078, 604807628, 770255983, 1249150122, 1555081692, 1996064986,
   2554220882, 2821834349, 2952996808, 3210313671, 3336571891, 3584528711,
   113926993, 338241895, 666307205, 773529912, 1294757372, 1396182291,
   1695183700, 1986661051, 2177026350, 2456956037, 2730485921, 2820302411,
   3259730800, 3345764771, 3516065817, 3600352804, 4094571909, 275423344,
   430227734, 506948616, 659060556, 883997877, 958139571, 1322822218,
   1537002063, 1747873779, 1955562222, 2024104815, 2227730452, 2361852424,
   2428436474, 2756734187, 3204031479, 3329325298]

/-- Big-endian byte serialisation of `x` on `len` bytes. -/
def toBytesBE (len x : ℕ) : List ℕ :=
  (List.range len).map (fun i => (x >>> (8 * (len - 1 - i))) &&& 255)

/-- SHA-256 message padding: append `128`, zero bytes up to 56 mod 64, and
the bit length on 8 big-endian bytes. -/
def sha256pad (msg : List ℕ) : List ℕ :=
  msg ++ [128] ++ List.replicate ((119 - msg.length % 64) % 64) 0
    ++ toBytesBE 8 (8 * msg.length)

/-- Group bytes into big-endian 32-bit words. -/
def bytesToWords : List ℕ → List ℕ
  | b0 :: b1 :: b2 :: b3 :: rest =>
      ((b0 <<< 24) ||| (b1 <<< 16) ||| (b2 <<< 8) ||| b3) :: bytesToWords rest
  | _ => []

/-- One extension step of the SHA-256 message schedule (appends word `t`
where `t` is the current length). -/
def scheduleStep (w : List ℕ) : List ℕ :=
  let t := w.length
  w ++ [w32 (smallSigma1 (w.getD (t - 2) 0) + w.getD (t - 7) 0 +
             smallSigma0 (w.getD (t - 15) 0) + w.getD (t - 16) 0)]

/-- SHA-256 working state: eight 32-bit words. -/
structure Sha256State where
  a : ℕ
  b : ℕ
  c : ℕ
  d : ℕ
  e : ℕ
  f : ℕ
  g : ℕ
  h : ℕ
deriving DecidableEq, Repr

/-- One SHA-256 compression round. -/
def sha256Round (s : Sha256State) (wk : ℕ × ℕ) : Sha256State :=
  let t1 := w32 (s.h + bigSigma1 s.e + sha256Ch s.e s.f s.g + wk.2 + wk.1)
  let t2 := w32 (bigSigma0 s.a + sha256Maj s.a s.b s.c)
  ⟨w32 (t1 + t2), s.a, s.b, s.c, w32 (s.d + t1), s.e, s.f, s.g⟩

/-- Compress one 64-byte block into the running state. -/
def sha256Block (st : Sha256State) (block : List ℕ) : Sha256State :=
  let w := scheduleStep^[48] (bytesToWords block)
  let s := (w.zip k256).foldl sha256Round st
  ⟨w32 (st.a + s.a), w32 (st.b + s.b), w32 (st.c + s.c), w32 (st.d + s.d),
   w32 (st.e + s.e), w32 (st.f + s.f), w32 (st.g + s.g), w32 (st.h + s.h)⟩

/-- Split a byte list into 64-byte chunks (`fuel`-driven recursion). -/
def chunks64Go : ℕ → List ℕ → List (List ℕ)
  | 0, _ => []
  | _ + 1, [] => []
  | fuel + 1, x :: xs => (x :: xs).take 64 :: chunks64Go fuel ((x :: xs).drop 64)

def chunks64 (l : List ℕ) : List (List ℕ) := chunks64Go l.length l

/-- SHA-256 of a byte string, as a 32-byte string. -/
def sha256 (msg : List ℕ) : List ℕ :=
  let st := (chunks64 (sha256pad msg)).foldl sha256Block
    ⟨1779033703, 3144134277, 1013904242, 2773480762,
     1359893119, 2600822924, 528734635, 1541459225⟩
  toBytesBE 4 st.a ++ toBytesBE 4 st.b ++ toBytesBE 4 st.c ++ toBytesBE 4 st.d
    ++ toBytesBE 4 st.e ++ toBytesBE 4 st.f ++ toBytesBE 4 st.g ++ toBytesBE 4 st.h

/-- `int.from_bytes` of the first four digest bytes, big-endian. -/
def bytesBE4 (l : List ℕ) : ℕ :=
  (l.take 4).foldl (fun acc b => acc * 256 + b) 0

/-! ## `frequency_hopping.py`: class `FrequencyHopper` -/

/-- The state of a constructed `FrequencyHopper` (its instance attributes). -/
structure FrequencyHopper where
  secret_key : List ℕ
  hop_range : ℚ × ℚ
  dwell_time_sec : ℚ
  hop_spacing : ℚ
  sample_rate : ℕ
  hop_frequencies : List ℚ
  hop_count : ℕ
deriving DecidableEq, Repr

/-- The shuffle loop of `_generate_hop_table`: for each loop index `i`,
re-seed `rng_state` by hashing `rng_state || bytes([i])`, take the first four
digest bytes big-endian modulo the number of remaining channels, and move that
channel to the output.  `bytes([i])` raises `ValueError` for `i ≥ 256`; the
modulo raises `ZeroDivisionError` on an empty pool (unreachable from
`_generate_hop_table`, which runs the loop exactly `len(frequencies)` times). -/
def fisherYatesGo (state : List ℕ) (i : ℕ) :
    (fuel : ℕ) → List ℚ → Except PyError (List ℚ)
  | 0, _ => .ok []
  | _ + 1, [] => .error .zeroDivision
  | fuel + 1, r0 :: rs =>
    if 256 ≤ i then .error .valueError
    else
      let st := sha256 (state ++ [i])
      let idx := bytesBE4 st % (r0 :: rs).length
      match fisherYatesGo st (i + 1) fuel ((r0 :: rs).eraseIdx idx) with
      | .error e => .error e
      | .ok rest => .ok ((r0 :: rs).getD idx 0 :: rest)

/-- The ordered channel grid `[min_freq + i * spacing for i in range(n)]`
with `n = int((max_freq - min_freq) / spacing)`. -/
def channel_grid (hop_range : ℚ × ℚ) (spacing : ℚ) : List ℚ :=
  (List.range (pyInt ((hop_range.2 - hop_range.1) / spacing)).toNat).map
    (fun i : ℕ => hop_range.1 + (i : ℚ) * spacing)

/-- `FrequencyHopper._generate_hop_table`: grid construction followed by the
SHA-256-driven shuffle seeded with `sha256(secret_key)`.  Dividing by
`hop_spacing = 0` raises `ZeroDivisionError` before anything else. -/
def generate_hop_table (secret_key : List ℕ) (hop_range : ℚ × ℚ)
    (spacing : ℚ) : Except PyError (List ℚ) :=
  if spacing = 0 then .error .zeroDivision
  else
    let frequencies := channel_grid hop_range spacing
    fisherYatesGo (sha256 secret_key) 0 frequencies.length frequencies

/-- `FrequencyHopper.__init__`.  `entropy` stands for the 32 bytes that
`secrets.token_bytes(32)` would return; the Python expression
`secret_key or secrets.token_bytes(32)` consults it whenever `secret_key`
is `None` *or falsy* (the empty byte string). -/
def fhInit (secret_key : Option (List ℕ)) (entropy : List ℕ)
    (hop_range : ℚ × ℚ) (dwell_time_ms : ℚ) (hop_spacing_hz : ℚ)
    (sample_rate : ℕ) : Except PyError FrequencyHopper :=
  let key := match secret_key with
    | none => entropy
    | some k => if k = [] then entropy else k
  match generate_hop_table key hop_range hop_spacing_hz with
  | .error e => .error e
  | .ok table =>
      .ok ⟨key, hop_range, dwell_time_ms / 1000, hop_spacing_hz, sample_rate,
           table, table.length⟩

/-- `FrequencyHopper._get_hop_freq`: `hop_frequencies[hop_index % hop_count]`.
With `hop_count = 0` the modulo raises `ZeroDivisionError`, and an index past
the end of the table raises `IndexError`; both failures are modelled as
`none`. -/
def get_hop_freq (h : FrequencyHopper) (hop_index : ℕ) : Option ℚ :=
  h.hop_frequencies.get? (hop_index % h.hop_count)

/-- Number of dwell-window samples: `int(sample_rate * dwell_time_sec)`. -/
def num_dwell_samples (h : FrequencyHopper) : ℕ :=
  (pyInt (h.sample_rate * h.dwell_time_sec)).toNat

/-- `FrequencyHopper.encode_symbol`: FM synthesis of one symbol on the hopped
carrier.  The loop body divides `max_deviation` by `symbol_freq`, so any
executed iteration with `symbol_freq = 0` raises `ZeroDivisionError`; an empty
hop table makes `_get_hop_freq` raise `ZeroDivisionError` first. -/
noncomputable def encode_symbol (h : FrequencyHopper) (symbol_freq amplitude
    phase : ℝ) (hop_index : ℕ) : Except PyError (List ℝ) :=
  match get_hop_freq h hop_index with
  | none => .error .zeroDivision
  | some carrier_freq =>
    if num_dwell_samples h ≠ 0 ∧ symbol_freq = 0 then .error .zeroDivision
    else
      .ok ((List.range (num_dwell_samples h)).map (fun i : ℕ =>
        amplitude * Real.sin
          (2 * Real.pi * (carrier_freq : ℝ) * ((i : ℝ) / (h.sample_rate : ℝ)) +
            ((carrier_freq : ℝ) * (1 / 10) / symbol_freq) *
              Real.sin (2 * Real.pi * symbol_freq *
                ((i : ℝ) / (h.sample_rate : ℝ))) +
            phase)))

/-- The symbol loop of `FrequencyHopper.encode_message`: encode each
`(frequency, amplitude, phase)` triple at successive hop indices and
concatenate the dwell windows. -/
noncomputable def encode_message_go (h : FrequencyHopper) :
    List (ℝ × ℝ × ℝ) → ℕ → Except PyError (List ℝ)
  | [], _ => .ok []
  | (f, a, p) :: rest, hop_idx =>
    match encode_symbol h f a p hop_idx with
    | .error e => .error e
    | .ok samples =>
      match encode_message_go h rest (hop_idx + 1) with
      | .error e => .error e
      | .ok others => .ok (samples ++ others)

/-- Metadata dictionary returned by `encode_message`. -/
structure HopMetadata where
  num_symbols : ℕ
  start_hop : ℕ
  end_hop : ℕ
  duration_sec : ℚ
  hops_used : ℕ

/-- `FrequencyHopper.encode_message`. -/
noncomputable def encode_message (h : FrequencyHopper)
    (symbols : List (ℝ × ℝ × ℝ)) (start_hop_index : ℕ) :
    Except PyError (List ℝ × HopMetadata) :=
  match encode_message_go h symbols start_hop_index with
  | .error e => .error e
  | .ok all_samples =>
      .ok (all_samples,
        ⟨symbols.length, start_hop_index, start_hop_index + symbols.length,
         (all_samples.length : ℚ) / (h.sample_rate : ℚ), symbols.length⟩)

/-- `math.atan2(y, x)`: the argument of the complex number `x + iy`. -/
noncomputable def atan2 (y x : ℝ) : ℝ := Complex.arg ⟨x, y⟩

/-- `FrequencyHopper.decode_symbol`: I/Q demodulation against the known hop
carrier; the recovered frequency is the carrier itself (the placeholder kept
by the source).  An empty hop table raises `ZeroDivisionError` in
`_get_hop_freq`. -/
noncomputable def decode_symbol (h : FrequencyHopper) (samples : List ℝ)
    (hop_index : ℕ) : Except PyError (ℝ × ℝ × ℝ) :=
  match get_hop_freq h hop_index with
  | none => .error .zeroDivision
  | some carrier_rat =>
    let carrier_freq : ℝ := (carrier_rat : ℝ)
    let i_samples := samples.enum.map (fun p =>
      p.2 * Real.cos (2 * Real.pi * carrier_freq * ((p.1 : ℝ) / (h.sample_rate : ℝ))))
    let q_samples := samples.enum.map (fun p =>
      p.2 * Real.sin (2 * Real.pi * carrier_freq * ((p.1 : ℝ) / (h.sample_rate : ℝ))))
    let i_filtered : ℝ :=
      if 50 ≤ i_samples.length then (i_samples.take 50).sum / 50 else 0
    let q_filtered : ℝ :=
      if 50 ≤ q_samples.length then (q_samples.take 50).sum / 50 else 0
    let amplitude := Real.sqrt (i_filtered ^ 2 + q_filtered ^ 2)
    let phase := atan2 q_filtered i_filtered
    .ok (carrier_freq, amplitude, phase)

/-! ## `ultrasonic_compression.py`: module constants and class `UltrasonicOFDM` -/

def SAMPLE_RATE : ℕ := 192000

def OFDM_MIN_FREQ : ℚ := 25000

def OFDM_MAX_FREQ : ℚ := 45000

def OFDM_BANDWIDTH : ℚ := OFDM_MAX_FREQ - OFDM_MIN_FREQ

def OFDM_NUM_CARRIERS : ℕ := 64

def OFDM_CARRIER_SPACING : ℚ := OFDM_BANDWIDTH / OFDM_NUM_CARRIERS

/-- The `QAM_LEVELS` dictionary; `none` models the `KeyError` raised by a
lookup of an unsupported modulation name. -/
def QAM_LEVELS (modulation : String) : Option ℕ :=
  if modulation = "BPSK" then some 2
  else if modulation = "QPSK" then some 4
  else if modulation = "16QAM" then some 16
  else if modulation = "64QAM" then some 64
  else none

def SYMBOL_DURATION : ℚ := 1 / 1000

def GUARD_INTERVAL : ℚ := 1 / 5000

/-- The state of a constructed `UltrasonicOFDM` encoder. -/
structure UltrasonicOFDM where
  sample_rate : ℕ
  num_carriers : ℕ
  modulation : String
  bits_per_symbol : ℕ
  carrier_freqs : List ℚ
deriving DecidableEq, Repr

/-- `UltrasonicOFDM.__init__`: looks up `QAM_LEVELS[modulation]` (a `KeyError`
for unsupported names; `int(math.log2 _)` is exact on the stored powers of
two) and enumerates the carrier grid.  No other validation is performed. -/
def ofdmInit (sample_rate num_carriers : ℕ) (modulation : String) :
    Except PyError UltrasonicOFDM :=
  match QAM_LEVELS modulation with
  | none => .error .keyError
  | some levels =>
      .ok ⟨sample_rate, num_carriers, modulation, Nat.log2 levels,
        (List.range num_carriers).map
          (fun i : ℕ => OFDM_MIN_FREQ + (i : ℚ) * OFDM_CARRIER_SPACING)⟩

/-- Little-endian bit expansion of one byte: `(byte >> i) & 1` for
`i in range(8)`. -/
def byte_bits (b : ℕ) : List ℕ :=
  (List.range 8).map (fun i => (b >>> i) &&& 1)

/-- `UltrasonicOFDM._bytes_to_symbols`: expand the payload to bits, pad with
zero bits to a multiple of `bits_per_symbol * num_carriers`, and group the
result into OFDM symbols of one `bits_per_symbol`-bit value per carrier
(value = `sum(b << i)` over the group, little-endian). -/
def bytes_to_symbols (bits_per_symbol num_carriers : ℕ) (data : List ℕ) :
    List (List ℕ) :=
  let bits := data.flatMap byte_bits
  let bpos := bits_per_symbol * num_carriers
  let padded := bits ++ List.replicate ((bpos - bits.length % bpos) % bpos) 0
  (List.range (padded.length / bpos)).map (fun s =>
    (List.range num_carriers).map (fun c =>
      let group := (padded.drop (s * bpos + c * bits_per_symbol)).take
        bits_per_symbol
      (group.enum.map (fun p => p.2 <<< p.1)).sum))

/-- `UltrasonicOFDM._qam_constellation`: map a symbol value to an I/Q point.
For 16/64-QAM the levels are divided by the outermost level (3 resp. 7);
unsupported names fall through to `(0, 0)`. -/
noncomputable def qam_constellation (modulation : String) (symbol : ℕ) :
    ℝ × ℝ :=
  if modulation = "BPSK" then
    (if symbol = 1 then 1 else -1, 0)
  else if modulation = "QPSK" then
    let angle : ℝ := (([45, 135, 225, 315] : List ℝ).getD symbol 0) *
      (Real.pi / 180)
    (Real.cos angle, Real.sin angle)
  else if modulation = "16QAM" then
    (([-3, -1, 1, 3] : List ℝ).getD (symbol &&& 3) 0 / 3,
     ([-3, -1, 1, 3] : List ℝ).getD ((symbol >>> 2) &&& 3) 0 / 3)
  else if modulation = "64QAM" then
    (([-7, -5, -3, -1, 1, 3, 5, 7] : List ℝ).getD (symbol &&& 7) 0 / 7,
     ([-7, -5, -3, -1, 1, 3, 5, 7] : List ℝ).getD ((symbol >>> 3) &&& 7) 0 / 7)
  else (0, 0)

/-- `UltrasonicOFDM.encode`: synthesize the OFDM symbols back-to-back, each a
`symbol_samples`-sample sum of modulated carriers followed by a silent guard
interval, inside a zero-initialised buffer of `num_samples` samples.  Sample
`j` of the buffer belongs to symbol `j / period` at offset `j % period`
(`period = symbol_samples + guard_samples`); offsets at or past
`symbol_samples`, and positions after the last symbol, retain the initial
`0.0`.  `_bytes_to_symbols` divides by `bits_per_symbol * num_carriers`
(`ZeroDivisionError` when zero), and the per-carrier term divides by
`num_carriers`. -/
noncomputable def UltrasonicOFDM.encode (o : UltrasonicOFDM)
    (data : List ℕ) : Except PyError (List ℝ) :=
  if o.bits_per_symbol * o.num_carriers = 0 then .error .zeroDivision
  else
    let ofdm_symbols := bytes_to_symbols o.bits_per_symbol o.num_carriers data
    let total_duration : ℚ :=
      ofdm_symbols.length * (SYMBOL_DURATION + GUARD_INTERVAL)
    let num_samples := (pyInt (o.sample_rate * total_duration)).toNat
    let symbol_samples := (pyInt (o.sample_rate * SYMBOL_DURATION)).toNat
    let guard_samples := (pyInt (o.sample_rate * GUARD_INTERVAL)).toNat
    let period := symbol_samples + guard_samples
    .ok ((List.range num_samples).map (fun j =>
      let s := j / period
      let r := j % period
      if s < ofdm_symbols.length ∧ r < symbol_samples then
        let t : ℝ := (r : ℝ) / (o.sample_rate : ℝ)
        (((ofdm_symbols.getD s []).enum.map (fun p =>
          let freq : ℝ := ((o.carrier_freqs.getD p.1 0 : ℚ) : ℝ)
          let iq := qam_constellation o.modulation p.2
          (iq.1 * Real.cos (2 * Real.pi * freq * t) +
           iq.2 * Real.sin (2 * Real.pi * freq * t)) /
            (o.num_carriers : ℝ))).sum)
      else 0))

/-- The `CompressionStats` dataclass. -/
structure CompressionStats where
  raw_bytes : ℕ
  compressed_bytes : ℕ
  compression_ratio : ℚ
  transmission_time : ℚ
  bitrate_bps : ℤ
  efficiency : ℚ
deriving DecidableEq, Repr

/-- `UltrasonicOFDM.calculate_stats`: only the lengths of the payload and the
sample buffer are consulted.  `transmission_time = len(samples) / sample_rate`
raises `ZeroDivisionError` when `sample_rate = 0`, and the bitrate division
raises `ZeroDivisionError` when `transmission_time = 0` (empty sample list);
`bitrate_bps` stores `int(bitrate)` (truncation). -/
def calculate_stats (o : UltrasonicOFDM) (data : List ℕ)
    (samples : List ℝ) : Except PyError CompressionStats :=
  if o.sample_rate = 0 then .error .zeroDivision
  else
    let transmission_time : ℚ := (samples.length : ℚ) / (o.sample_rate : ℚ)
    if transmission_time = 0 then .error .zeroDivision
    else
      let bitrate : ℚ := (data.length * 8 : ℚ) / transmission_time
      .ok ⟨data.length, data.length, 1, transmission_time, pyInt bitrate,
           bitrate / OFDM_BANDWIDTH⟩

/-! ## Concrete instances used by witnesses and counterexamples -/

/-- A one-carrier 16-QAM encoder at a 200 kHz sample rate; equal to the
result of `UltrasonicOFDM.__init__(200000, 1, "16QAM")`. -/
def ofdm16 : UltrasonicOFDM := ⟨200000, 1, "16QAM", 4, [25000]⟩

/-- A one-channel hopper with the default 10 ms dwell time. -/
def hopper10ms : FrequencyHopper :=
  ⟨[1], (20000, 20100), 1 / 100, 100, 192000, [20000], 1⟩

/-- A one-channel hopper constructed with `dwell_time_ms = 0`; equal to the
result of the corresponding `FrequencyHopper.__init__` call. -/
def hopperD0 : FrequencyHopper :=
  ⟨[1], (20000, 20100), 0, 100, 192000, [20000], 1⟩

/-! ## Helper lemmas -/

theorem pyInt_of_nonneg {q : ℚ} (h : 0 ≤ q) : pyInt q = ⌊q⌋ := if_pos h

theorem pyInt_nonpos {q : ℚ} (h : q ≤ 0) : pyInt q ≤ 0 := by
  unfold pyInt
  split
  · exact Int.floor_nonpos h
  · have : (0 : ℚ) ≤ -q := by linarith
    have := Int.floor_nonneg.mpr this
    omega

/-- Removing the element at a valid index and re-consing it in front is a
permutation. -/
theorem cons_getD_eraseIdx_perm :
    ∀ (l : List ℚ) (i : ℕ), i < l.length →
      (l.getD i 0 :: l.eraseIdx i).Perm l
  | [], i, h => absurd h (by simp)
  | x :: xs, 0, _ => by simp
  | x :: xs, i + 1, h => by
    simp only [List.getD_cons_succ, List.eraseIdx_cons_succ]
    exact (List.Perm.swap x (xs.getD i 0) (xs.eraseIdx i)).trans
      ((cons_getD_eraseIdx_perm xs i (by simpa using h)).cons x)

/-- Any successful run of the shuffle loop returns a permutation of the
channel pool it started from. -/
theorem fisherYatesGo_perm (fuel : ℕ) :
    ∀ (state : List ℕ) (i : ℕ) (remaining out : List ℚ),
      remaining.length = fuel →
      fisherYatesGo state i fuel remaining = .ok out → out.Perm remaining := by
  induction fuel with
  | zero =>
    intro state i remaining out hlen hok
    have hnil : remaining = [] := List.eq_nil_of_length_eq_zero hlen
    subst hnil
    simp only [fisherYatesGo] at hok
    cases hok
    exact List.Perm.refl []
  | succ n ih =>
    intro state i remaining out hlen hok
    cases remaining with
    | nil => simp at hlen
    | cons r0 rs =>
      simp only [fisherYatesGo] at hok
      split at hok
      · cases hok
      · set st := sha256 (state ++ [i]) with hst
        set idx := bytesBE4 st % (r0 :: rs).length with hidx
        have hidxlt : idx < (r0 :: rs).length :=
          Nat.mod_lt _ (by simp)
        have hlen' : ((r0 :: rs).eraseIdx idx).length = n := by
          rw [List.length_eraseIdx_of_lt hidxlt]
          omega
        cases hrec : fisherYatesGo st (i + 1) n ((r0 :: rs).eraseIdx idx) with
        | error e => rw [hrec] at hok; cases hok
        | ok rest =>
          rw [hrec] at hok
          cases hok
          exact ((ih st (i + 1) _ rest hlen' hrec).cons _).trans
            (cons_getD_eraseIdx_perm (r0 :: rs) idx hidxlt)

/-- The shuffle loop succeeds whenever every loop index stays below 256. -/
theorem fisherYatesGo_isOk (fuel : ℕ) :
    ∀ (state : List ℕ) (i : ℕ) (remaining : List ℚ),
      remaining.length = fuel → i + fuel ≤ 256 →
      ∃ out, fisherYatesGo state i fuel remaining = .ok out := by
  induction fuel with
  | zero =>
    intro state i remaining hlen _
    have hnil : remaining = [] := List.eq_nil_of_length_eq_zero hlen
    subst hnil
    exact ⟨[], rfl⟩
  | succ n ih =>
    intro state i remaining hlen hle
    cases remaining with
    | nil => simp at hlen
    | cons r0 rs =>
      have hi : ¬ 256 ≤ i := by omega
      simp only [fisherYatesGo, if_neg hi]
      set st := sha256 (state ++ [i]) with hst
      set idx := bytesBE4 st % (r0 :: rs).length with hidx
      have hidxlt : idx < (r0 :: rs).length := Nat.mod_lt _ (by simp)
      have hlen' : ((r0 :: rs).eraseIdx idx).length = n := by
        rw [List.length_eraseIdx_of_lt hidxlt]
        omega
      obtain ⟨rest, hrest⟩ := ih st (i + 1) _ hlen' (by omega)
      exact ⟨_, by rw [hrest]⟩

/-- The shuffle loop raises `ValueError` as soon as a loop index reaches 256:
with more than `256 - i` channels left it always fails. -/
theorem fisherYatesGo_fail (fuel : ℕ) :
    ∀ (state : List ℕ) (i : ℕ) (remaining : List ℚ),
      remaining.length = fuel → i ≤ 256 → 256 < i + fuel →
      fisherYatesGo state i fuel remaining = .error .valueError := by
  induction fuel with
  | zero => intro state i remaining _ _ h; omega
  | succ n ih =>
    intro state i remaining hlen hle hgt
    cases remaining with
    | nil => simp at hlen
    | cons r0 rs =>
      by_cases hi : 256 ≤ i
      · simp only [fisherYatesGo, if_pos hi]
      · simp only [fisherYatesGo, if_neg hi]
        set st := sha256 (state ++ [i]) with hst
        set idx := bytesBE4 st % (r0 :: rs).length with hidx
        have hidxlt : idx < (r0 :: rs).length := Nat.mod_lt _ (by simp)
        have hlen' : ((r0 :: rs).eraseIdx idx).length = n := by
          rw [List.length_eraseIdx_of_lt hidxlt]
          omega
        rw [ih st (i + 1) _ hlen' (by omega) (by omega)]

theorem channel_grid_length (r : ℚ × ℚ) (s : ℚ) :
    (channel_grid r s).length = (pyInt ((r.2 - r.1) / s)).toNat := by
  unfold channel_grid
  rw [List.length_map, List.length_range]

theorem channel_grid_nodup (r : ℚ × ℚ) {s : ℚ} (hs : s ≠ 0) :
    (channel_grid r s).Nodup := by
  unfold channel_grid
  refine List.Nodup.map ?_ (List.nodup_range _)
  intro a b hab
  simp only at hab
  have h2 : (a : ℚ) * s = (b : ℚ) * s := by linarith [hab]
  exact_mod_cast mul_right_cancel₀ hs h2

end SwlModem

/-- Sanity: the embedded SHA-256 matches the FIPS 180-4 test vector for the
empty message. -/
theorem sha256_empty_test_vector :
    SwlModem.sha256 [] =
      [227, 176, 196, 66, 152, 252, 28, 20, 154, 251, 244, 200,
       153, 111, 185, 36, 39, 174, 65, 228, 100, 155, 147, 76,
       164, 149, 153, 27, 120, 82, 184, 85] := by
  decide

/-- Sanity: the embedded SHA-256 matches the FIPS 180-4 test vector for
`"abc"`. -/
theorem sha256_abc_test_vector :
    SwlModem.sha256 [97, 98, 99] =
      [186, 120, 22, 191, 143, 1, 207, 234, 65, 65, 64, 222,
       93, 174, 34, 35, 176, 3, 97, 163, 150, 23, 122, 156,
       180, 16, 255, 97, 242, 0, 21, 173] := by
  decide

open SwlModem

set_option maxRecDepth 4000 in
theorem key1_first_shuffle_index :
    bytesBE4 (sha256 (sha256 [1] ++ [0])) % 2 = 0 := by
  decide

theorem pyInt_eval : pyInt ((((20000:ℚ), (20200:ℚ)).2 - ((20000:ℚ), (20200:ℚ)).1) / 100) = 2 := by
  rw [pyInt_of_nonneg (by norm_num)]
  norm_num

theorem grid_eval : channel_grid (20000, 20200) 100 = [20000, 20100] := by
  unfold channel_grid
  rw [show (pyInt ((((20000:ℚ), (20200:ℚ)).2 - ((20000:ℚ), (20200:ℚ)).1) / 100)).toNat = 2 from by rw [pyInt_eval]; rfl]
  simp [List.range_succ]
  norm_num

set_option maxRecDepth 8000 in
theorem key1_hop_table :
    generate_hop_table [1] (20000, 20200) 100 = .ok [20000, 20100] := by
  unfold generate_hop_table
  rw [if_neg (by norm_num : ¬(100:ℚ) = 0), grid_eval]
  simp only [fisherYatesGo, List.eraseIdx]
  norm_num [key1_first_shuffle_index, Nat.mod_one]

set_option maxRecDepth 8000 in
theorem e1_first_shuffle_index :
    bytesBE4 (sha256 (sha256 (List.replicate 32 0) ++ [0])) % 2 = 1 := by
  decide

set_option maxRecDepth 8000 in
theorem e2_first_shuffle_index :
    bytesBE4 (sha256 (sha256 (List.replicate 32 5) ++ [0])) % 2 = 0 := by
  decide

set_option maxRecDepth 8000 in
theorem e1_hop_table :
    generate_hop_table (List.replicate 32 0) (20000, 20200) 100 =
      .ok [20100, 20000] := by
  unfold generate_hop_table
  rw [if_neg (by norm_num : ¬(100:ℚ) = 0), grid_eval]
  simp only [fisherYatesGo, List.eraseIdx]
  norm_num [e1_first_shuffle_index, Nat.mod_one]

set_option maxRecDepth 8000 in
theorem e2_hop_table :
    generate_hop_table (List.replicate 32 5) (20000, 20200) 100 =
      .ok [20000, 20100] := by
  unfold generate_hop_table
  rw [if_neg (by norm_num : ¬(100:ℚ) = 0), grid_eval]
  simp only [fisherYatesGo, List.eraseIdx]
  norm_num [e2_first_shuffle_index, Nat.mod_one]

/-- C1 counterexample: the claim fails for the empty key.  Python treats
`secret_key = b""` as falsy, so `secret_key or secrets.token_bytes(32)` falls
back to the random source; two generators built with the same empty key but
different entropy produce different hop sequences. -/
theorem C1_empty_key_counterexample :
    (fhInit (some []) (List.replicate 32 0) (20000, 20200) 10 100 192000).toOption.map
        FrequencyHopper.hop_frequencies ≠
      (fhInit (some []) (List.replicate 32 5) (20000, 20200) 10 100 192000).toOption.map
        FrequencyHopper.hop_frequencies := by
  simp only [fhInit, e1_hop_table, e2_hop_table]
  norm_num [e1_hop_table, e2_hop_table, Except.toOption]

/-- C2: for every key and every configuration with positive spacing on which
table generation succeeds, the hop sequence is a permutation of the ordered
channel grid, and every grid channel occurs in it exactly once. -/
theorem C2_hop_sequence_is_permutation (key : List ℕ) (hop_range : ℚ × ℚ) (spacing : ℚ)
    (table : List ℚ) (hs : 0 < spacing)
    (hok : generate_hop_table key hop_range spacing = .ok table) :
    table.Perm (channel_grid hop_range spacing) ∧
      ∀ f ∈ channel_grid hop_range spacing, table.count f = 1 := by
  unfold generate_hop_table at hok
  rw [if_neg hs.ne'] at hok
  have hperm := fisherYatesGo_perm _ _ _ _ _ rfl hok
  refine ⟨hperm, fun f hf => ?_⟩
  rw [hperm.count_eq]
  exact List.count_eq_one_of_mem (channel_grid_nodup hop_range hs.ne') hf

/-- C2 witness: the theorem instantiated on the two-channel grid
`(20000, 20200)` with spacing 100 and key `[1]`. -/
theorem C2_hop_sequence_is_permutation_witness : (0:ℚ) < 100 ∧
    generate_hop_table [1] (20000, 20200) 100 = .ok [20000, 20100] ∧
    (([20000, 20100] : List ℚ).Perm (channel_grid (20000, 20200) 100) ∧
      ∀ f ∈ channel_grid (20000, 20200) 100,
        ([20000, 20100] : List ℚ).count f = 1) :=
  ⟨by norm_num, key1_hop_table,
    C2_hop_sequence_is_permutation [1] (20000, 20200) 100 [20000, 20100] (by norm_num) key1_hop_table⟩

/-- C1 (amended): for every NONEMPTY key, construction is a pure function of
the key and configuration; the entropy that models `secrets.token_bytes(32)`
is never consulted, so two independently constructed generators with the same
key are identical. -/
theorem C1_same_key_same_hop_sequence (k e1 e2 : List ℕ) (r : ℚ × ℚ) (d s : ℚ) (rate : ℕ)
    (hk : k ≠ []) :
    fhInit (some k) e1 r d s rate = fhInit (some k) e2 r d s rate := by
  unfold fhInit
  simp [hk]

/-- C1 witness: the theorem instantiated at the key `[1]` and two different
entropy values. -/
theorem C1_same_key_same_hop_sequence_witness : ([1] : List ℕ) ≠ [] ∧
    fhInit (some [1]) [] (20000, 20200) 10 100 192000 =
      fhInit (some [1]) [7] (20000, 20200) 10 100 192000 :=
  ⟨by simp, C1_same_key_same_hop_sequence [1] [] [7] (20000, 20200) 10 100 192000 (by simp)⟩

theorem generate_hop_table_fail (key : List ℕ) {r : ℚ × ℚ} {s : ℚ}
    (hs : s ≠ 0) (hlen : 256 < (channel_grid r s).length) :
    generate_hop_table key r s = .error .valueError := by
  unfold generate_hop_table
  rw [if_neg hs]
  exact fisherYatesGo_fail _ _ 0 _ rfl (by omega) (by omega)

/-- C9: whenever the channel grid holds more than 256 channels
(`floor((freq_max - freq_min) / spacing) > 256`), construction raises
`ValueError`, because the shuffle re-seeds the digest with `bytes([i])` and
`bytes([i])` is undefined for `i ≥ 256`. -/
theorem C9_over_256_channels_value_error (secret_key : Option (List ℕ)) (entropy : List ℕ)
    (r : ℚ × ℚ) (d s : ℚ) (rate : ℕ)
    (h : 256 < ⌊(r.2 - r.1) / s⌋) :
    fhInit secret_key entropy r d s rate = .error .valueError := by
  have hs : s ≠ 0 := by
    intro h0
    rw [h0, div_zero] at h
    simp at h
  have hq : (257 : ℚ) ≤ (r.2 - r.1) / s := by
    exact_mod_cast Int.le_floor.mp h
  have hlen : 256 < (channel_grid r s).length := by
    rw [channel_grid_length, pyInt_of_nonneg (le_trans (by norm_num) hq)]
    have h257 : (257 : ℤ) ≤ ⌊(r.2 - r.1) / s⌋ := h
    omega
  simp only [fhInit]
  rw [generate_hop_table_fail _ hs hlen]

/-- C9 witness: a 257-channel configuration fails with `ValueError`. -/
theorem C9_over_256_channels_value_error_witness : 256 < ⌊(((20000:ℚ), (45700:ℚ)).2 - ((20000:ℚ), (45700:ℚ)).1) / 100⌋ ∧
    fhInit (some [1]) [] (20000, 45700) 10 100 192000 = .error .valueError :=
  ⟨by norm_num, C9_over_256_channels_value_error (some [1]) [] (20000, 45700) 10 100 192000 (by norm_num)⟩

theorem generate_hop_table_empty (key : List ℕ) {r : ℚ × ℚ} {s : ℚ}
    (hs : s ≠ 0) (hgrid : channel_grid r s = []) :
    generate_hop_table key r s = .ok [] := by
  unfold generate_hop_table
  rw [if_neg hs, hgrid]
  rfl

theorem generate_hop_table_isOk (key : List ℕ) {r : ℚ × ℚ} {s : ℚ}
    (hs : s ≠ 0) (hle : (channel_grid r s).length ≤ 256) :
    ∃ out, generate_hop_table key r s = .ok out ∧
      out.Perm (channel_grid r s) := by
  unfold generate_hop_table
  rw [if_neg hs]
  obtain ⟨out, hout⟩ := fisherYatesGo_isOk (channel_grid r s).length
    (sha256 key) 0 (channel_grid r s) rfl (by omega)
  exact ⟨out, hout, fisherYatesGo_perm _ _ _ _ _ rfl hout⟩

/-- C4 (amended): construction performs no bounds validation.  With
`freq_min ≥ freq_max` and positive spacing it SUCCEEDS with an empty channel
grid (`hop_count = 0`); `spacing = 0` raises `ZeroDivisionError`, not
`ConfigError`. -/
theorem C4_construction_ignores_bad_bounds :
    (∀ (sk : Option (List ℕ)) (e : List ℕ) (r : ℚ × ℚ) (d s : ℚ) (rate : ℕ),
        r.2 ≤ r.1 → 0 < s →
        (fhInit sk e r d s rate).toOption.map FrequencyHopper.hop_count =
          some 0) ∧
    (∀ (sk : Option (List ℕ)) (e : List ℕ) (r : ℚ × ℚ) (d : ℚ) (rate : ℕ),
        fhInit sk e r d 0 rate = .error .zeroDivision) := by
  constructor
  · intro sk e r d s rate hr hs
    have hq : (r.2 - r.1) / s ≤ 0 := by
      apply div_nonpos_of_nonpos_of_nonneg
      · linarith
      · exact hs.le
    have htn : (pyInt ((r.2 - r.1) / s)).toNat = 0 := by
      have h1 := pyInt_nonpos hq
      omega
    have hgrid : channel_grid r s = [] := by
      unfold channel_grid
      rw [htn]
      rfl
    simp only [fhInit]
    rw [generate_hop_table_empty _ hs.ne' hgrid]
    rfl
  · intro sk e r d rate
    simp [fhInit, generate_hop_table]

/-- C4 counterexample: `hop_range = (100, 50)` constructs successfully with
an empty grid instead of failing with `ConfigError`. -/
theorem C4_min_ge_max_constructs_counterexample :
    fhInit (some [1]) [] (100, 50) 10 100 192000 =
      .ok ⟨[1], (100, 50), 1 / 100, 100, 192000, [], 0⟩ := by
  have htn : (pyInt ((((100:ℚ), (50:ℚ)).2 - ((100:ℚ), (50:ℚ)).1) / 100)).toNat = 0 := by
    unfold pyInt
    rw [if_neg (by norm_num)]
    norm_num
  have hgrid : channel_grid (100, 50) 100 = [] := by
    unfold channel_grid
    rw [htn]
    rfl
  simp only [fhInit]
  rw [show (if ([1] : List ℕ) = [] then ([] : List ℕ) else [1]) = [1] from rfl]
  rw [generate_hop_table_empty [1] (by norm_num) hgrid]
  norm_num

/-- C4 witness: both conjuncts of the amended theorem instantiated. -/
theorem C4_construction_ignores_bad_bounds_witness :
    (((100:ℚ), (50:ℚ)).2 ≤ ((100:ℚ), (50:ℚ)).1) ∧ ((0:ℚ) < 100) ∧
    (fhInit (some [1]) [] (100, 50) 10 100 192000).toOption.map
      FrequencyHopper.hop_count = some 0 ∧
    fhInit (some [1]) [] (100, 200) 10 0 192000 = .error .zeroDivision :=
  ⟨by norm_num, by norm_num,
   C4_construction_ignores_bad_bounds.1 (some [1]) [] (100, 50) 10 100 192000 (by norm_num) (by norm_num),
   C4_construction_ignores_bad_bounds.2 (some [1]) [] (100, 200) 10 192000⟩

/-- C3 (amended): no Nyquist validation exists.  `FrequencyHopper`
construction succeeds for every configuration with nonzero spacing and at
most 256 channels, regardless of how the carriers compare with
`sample_rate / 2`, and `UltrasonicOFDM` construction succeeds for every
supported modulation name, regardless of `sample_rate`. -/
theorem C3_construction_ignores_nyquist :
    (∀ (sk : Option (List ℕ)) (e : List ℕ) (r : ℚ × ℚ) (d s : ℚ) (rate : ℕ),
        s ≠ 0 → (channel_grid r s).length ≤ 256 →
        ∃ hp, fhInit sk e r d s rate = .ok hp ∧
          hp.hop_frequencies.Perm (channel_grid r s)) ∧
    (∀ (rate nc : ℕ) (m : String), (QAM_LEVELS m).isSome →
        ∃ o, ofdmInit rate nc m = .ok o) := by
  constructor
  · intro sk e r d s rate hs hle
    simp only [fhInit]
    set key : List ℕ :=
      (match sk with | none => e | some k => if k = [] then e else k) with hkey
    obtain ⟨out, hout, hperm⟩ := generate_hop_table_isOk key hs hle
    refine ⟨⟨key, r, d / 1000, s, rate, out, out.length⟩, ?_, hperm⟩
    rw [hout]
  · intro rate nc m hm
    cases hq : QAM_LEVELS m with
    | none => rw [hq] at hm; simp at hm
    | some levels =>
      refine ⟨⟨rate, nc, m, Nat.log2 levels,
        (List.range nc).map (fun i : ℕ => OFDM_MIN_FREQ + (i : ℚ) * OFDM_CARRIER_SPACING)⟩, ?_⟩
      unfold ofdmInit
      rw [hq]

theorem pyInt96_eval :
    pyInt ((((96000:ℚ), (96200:ℚ)).2 - ((96000:ℚ), (96200:ℚ)).1) / 100) = 2 := by
  rw [pyInt_of_nonneg (by norm_num)]
  norm_num

theorem grid96_eval : channel_grid (96000, 96200) 100 = [96000, 96100] := by
  unfold channel_grid
  rw [show (pyInt ((((96000:ℚ), (96200:ℚ)).2 - ((96000:ℚ), (96200:ℚ)).1) / 100)).toNat = 2 from by
    rw [pyInt96_eval]
    rfl]
  simp [List.range_succ]
  norm_num

set_option maxRecDepth 8000 in
theorem key1_96_hop_table :
    generate_hop_table [1] (96000, 96200) 100 = .ok [96000, 96100] := by
  unfold generate_hop_table
  rw [if_neg (by norm_num : ¬(100:ℚ) = 0), grid96_eval]
  simp only [fisherYatesGo, List.eraseIdx]
  norm_num [key1_first_shuffle_index, Nat.mod_one]

/-- C3 counterexample: a hopper whose lowest carrier 96000 equals the
Nyquist frequency `192000 / 2` constructs successfully, and an OFDM encoder
at a 40 kHz sample rate, whose lowest carrier 25000 exceeds the Nyquist
frequency 20000, also constructs successfully.  No `NyquistViolation` is
raised anywhere. -/
theorem C3_nyquist_violation_constructs_counterexample :
    (fhInit (some [1]) [] (96000, 96200) 10 100 192000).toOption.map
        FrequencyHopper.hop_frequencies = some [96000, 96100] ∧
    ¬((96000:ℚ) < 192000 / 2) ∧
    (ofdmInit 40000 64 "QPSK").toOption.map
        (fun o => o.carrier_freqs.getD 0 0) = some 25000 ∧
    ¬((25000:ℚ) < 40000 / 2) := by
  refine ⟨?_, by norm_num, ?_, by norm_num⟩
  · simp only [fhInit]
    rw [show (if ([1] : List ℕ) = [] then ([] : List ℕ) else [1]) = [1] from rfl]
    rw [key1_96_hop_table]
    rfl
  · have hc : ((List.range 64).map
        (fun i : ℕ => OFDM_MIN_FREQ + (i : ℚ) * OFDM_CARRIER_SPACING)).getD 0 0 = 25000 := by
      rw [List.getD_eq_getElem?_getD, List.getElem?_map, List.getElem?_range (by norm_num)]
      norm_num [OFDM_MIN_FREQ]
    simp only [ofdmInit, QAM_LEVELS]
    simp
    exact ⟨_, rfl, by simpa using hc⟩

/-- C3 witness: the amended theorem instantiated at the two
Nyquist-violating configurations. -/
theorem C3_construction_ignores_nyquist_witness :
    ((100:ℚ) ≠ 0) ∧ ((channel_grid (96000, 96200) 100).length ≤ 256) ∧
    (∃ hp, fhInit (some [1]) [] (96000, 96200) 10 100 192000 = .ok hp ∧
        hp.hop_frequencies.Perm (channel_grid (96000, 96200) 100)) ∧
    (QAM_LEVELS "QPSK").isSome ∧ (∃ o, ofdmInit 40000 64 "QPSK" = .ok o) :=
  ⟨by norm_num, by rw [grid96_eval]; norm_num,
   C3_construction_ignores_nyquist.1 (some [1]) [] (96000, 96200) 10 100 192000 (by norm_num)
     (by rw [grid96_eval]; norm_num),
   by simp [QAM_LEVELS],
   C3_construction_ignores_nyquist.2 40000 64 "QPSK" (by simp [QAM_LEVELS])⟩

theorem levels16_bound (j : ℕ) (hj : j ≤ 3) :
    |([-3, -1, 1, 3] : List ℝ).getD j 0| ≤ 3 := by
  interval_cases j <;> norm_num

theorem levels64_bound (j : ℕ) (hj : j ≤ 7) :
    |([-7, -5, -3, -1, 1, 3, 5, 7] : List ℝ).getD j 0| ≤ 7 := by
  interval_cases j <;> norm_num

/-- C5 (amended): every constellation point of a supported order lies in
`[-1, 1]^2`; BPSK and QPSK points lie on the unit circle; the 16-QAM and
64-QAM levels are normalized so that the outermost LEVEL is 1, hence the
maximum-magnitude corner points `(1, 1)` have squared Euclidean norm 2
(norm `sqrt 2`), not 1. -/
theorem C5_constellation_bounds :
    (∀ (m : String) (lv s : ℕ), QAM_LEVELS m = some lv → s < lv →
        |(qam_constellation m s).1| ≤ 1 ∧ |(qam_constellation m s).2| ≤ 1) ∧
    (∀ s : ℕ,
        (qam_constellation "BPSK" s).1 ^ 2 + (qam_constellation "BPSK" s).2 ^ 2 = 1) ∧
    (∀ s : ℕ,
        (qam_constellation "QPSK" s).1 ^ 2 + (qam_constellation "QPSK" s).2 ^ 2 = 1) ∧
    (qam_constellation "16QAM" 15 = (1, 1) ∧
      qam_constellation "64QAM" 63 = (1, 1) ∧
      (1:ℝ) ^ 2 + (1:ℝ) ^ 2 = 2) := by
  refine ⟨?_, ?_, ?_, ?_, ?_, by norm_num⟩
  · intro m lv s hm hs
    unfold QAM_LEVELS at hm
    unfold qam_constellation
    split_ifs at hm with h1 h2 h3 h4
    · subst h1
      rw [if_pos rfl]
      by_cases hsym : s = 1 <;> simp [hsym]
    · subst h2
      rw [if_neg h1, if_pos rfl]
      exact ⟨Real.abs_cos_le_one _, Real.abs_sin_le_one _⟩
    · subst h3
      rw [if_neg h1, if_neg h2, if_pos rfl]
      have hi := levels16_bound (s &&& 3) (Nat.and_le_right ..)
      have hq := levels16_bound ((s >>> 2) &&& 3) (Nat.and_le_right ..)
      constructor <;>
        · rw [abs_div, abs_of_nonneg (by norm_num : (0:ℝ) ≤ 3)]
          first
          | exact div_le_one_of_le₀ hi (by norm_num)
          | exact div_le_one_of_le₀ hq (by norm_num)
    · subst h4
      rw [if_neg h1, if_neg h2, if_neg h3, if_pos rfl]
      have hi := levels64_bound (s &&& 7) (Nat.and_le_right ..)
      have hq := levels64_bound ((s >>> 3) &&& 7) (Nat.and_le_right ..)
      constructor <;>
        · rw [abs_div, abs_of_nonneg (by norm_num : (0:ℝ) ≤ 7)]
          first
          | exact div_le_one_of_le₀ hi (by norm_num)
          | exact div_le_one_of_le₀ hq (by norm_num)
  · intro s
    unfold qam_constellation
    rw [if_pos rfl]
    by_cases hsym : s = 1 <;> simp [hsym]
  · intro s
    unfold qam_constellation
    rw [if_neg (by simp), if_pos rfl]
    exact Real.cos_sq_add_sin_sq _
  · unfold qam_constellation
    rw [if_neg (by simp), if_neg (by simp), if_pos rfl,
      show (15 : ℕ) &&& 3 = 3 from by decide,
      show (15 : ℕ) >>> 2 &&& 3 = 3 from by decide]
    norm_num
  · unfold qam_constellation
    rw [if_neg (by simp), if_neg (by simp), if_neg (by simp), if_pos rfl,
      show (63 : ℕ) &&& 7 = 7 from by decide,
      show (63 : ℕ) >>> 3 &&& 7 = 7 from by decide]
    norm_num

/-- C5 counterexample: the 16-QAM point of bit-group 15 is the corner
`(1, 1)`, whose squared norm is 2 and whose Euclidean norm exceeds 1, so the
maximum-magnitude point does not have unit norm. -/
theorem C5_corner_norm_not_one_counterexample :
    qam_constellation "16QAM" 15 = (1, 1) ∧
    (1:ℝ) ^ 2 + (1:ℝ) ^ 2 ≠ 1 ∧
    1 < Real.sqrt ((1:ℝ) ^ 2 + (1:ℝ) ^ 2) := by
  refine ⟨?_, by norm_num, ?_⟩
  · unfold qam_constellation
    rw [if_neg (by simp), if_neg (by simp), if_pos rfl,
      show (15 : ℕ) &&& 3 = 3 from by decide,
      show (15 : ℕ) >>> 2 &&& 3 = 3 from by decide]
    norm_num
  · rw [show (1:ℝ) ^ 2 + (1:ℝ) ^ 2 = 2 by norm_num]
    rw [show (1:ℝ) = Real.sqrt 1 from (Real.sqrt_one).symm]
    exact Real.sqrt_lt_sqrt (by norm_num) (by norm_num)

/-- C5 witness: the in-range part of the theorem instantiated at 16-QAM
bit-group 5. -/
theorem C5_constellation_bounds_witness :
    QAM_LEVELS "16QAM" = some 16 ∧ (5:ℕ) < 16 ∧
    (|(qam_constellation "16QAM" 5).1| ≤ 1 ∧
      |(qam_constellation "16QAM" 5).2| ≤ 1) :=
  ⟨by simp [QAM_LEVELS], by norm_num,
   C5_constellation_bounds.1 "16QAM" 16 5 (by simp [QAM_LEVELS]) (by norm_num)⟩

theorem qam_normSq_le_two (m : String) (s : ℕ) :
    (qam_constellation m s).1 ^ 2 + (qam_constellation m s).2 ^ 2 ≤ 2 := by
  unfold qam_constellation
  split_ifs with h1 hsym h2 h3 h4
  · norm_num
  · norm_num
  · rw [show ∀ a b : ℝ, (a, b).1 = a from fun a b => rfl,
      show ∀ a b : ℝ, (a, b).2 = b from fun a b => rfl,
      Real.cos_sq_add_sin_sq]
    norm_num
  · have hi := levels16_bound (s &&& 3) (Nat.and_le_right ..)
    have hq := levels16_bound ((s >>> 2) &&& 3) (Nat.and_le_right ..)
    set x := ([-3, -1, 1, 3] : List ℝ).getD (s &&& 3) 0 with hx
    set y := ([-3, -1, 1, 3] : List ℝ).getD ((s >>> 2) &&& 3) 0 with hy
    obtain ⟨hi1, hi2⟩ := abs_le.mp hi
    obtain ⟨hq1, hq2⟩ := abs_le.mp hq
    simp only
    have px : (0:ℝ) ≤ (3 - x) * (3 + x) := by
      apply mul_nonneg <;> linarith
    have py : (0:ℝ) ≤ (3 - y) * (3 + y) := by
      apply mul_nonneg <;> linarith
    nlinarith [px, py]
  · have hi := levels64_bound (s &&& 7) (Nat.and_le_right ..)
    have hq := levels64_bound ((s >>> 3) &&& 7) (Nat.and_le_right ..)
    set x := ([-7, -5, -3, -1, 1, 3, 5, 7] : List ℝ).getD (s &&& 7) 0 with hx
    set y := ([-7, -5, -3, -1, 1, 3, 5, 7] : List ℝ).getD ((s >>> 3) &&& 7) 0 with hy
    obtain ⟨hi1, hi2⟩ := abs_le.mp hi
    obtain ⟨hq1, hq2⟩ := abs_le.mp hq
    simp only
    have px : (0:ℝ) ≤ (7 - x) * (7 + x) := by
      apply mul_nonneg <;> linarith
    have py : (0:ℝ) ≤ (7 - y) * (7 + y) := by
      apply mul_nonneg <;> linarith
    nlinarith [px, py]
  · norm_num

theorem iq_term_bound (a b θ : ℝ) (h : a ^ 2 + b ^ 2 ≤ 2) :
    |a * Real.cos θ + b * Real.sin θ| ≤ Real.sqrt 2 := by
  have h2 : (a * Real.cos θ + b * Real.sin θ) ^ 2 ≤ 2 := by
    nlinarith [Real.sin_sq_add_cos_sq θ, sq_nonneg (a * Real.sin θ - b * Real.cos θ)]
  calc |a * Real.cos θ + b * Real.sin θ|
      = Real.sqrt ((a * Real.cos θ + b * Real.sin θ) ^ 2) :=
        (Real.sqrt_sq_eq_abs _).symm
    _ ≤ Real.sqrt 2 := Real.sqrt_le_sqrt h2

theorem list_sum_abs_le (B : ℝ) :
    ∀ (l : List ℝ), (∀ x ∈ l, |x| ≤ B) → |l.sum| ≤ l.length * B
  | [], _ => by simp
  | x :: xs, h => by
    have hx := h x (by simp)
    have hxs := list_sum_abs_le B xs (fun y hy => h y (by simp [hy]))
    have htri : |(x :: xs).sum| ≤ |x| + |xs.sum| := by
      rw [List.sum_cons]
      exact abs_add _ _
    calc |(x :: xs).sum| ≤ |x| + |xs.sum| := htri
      _ ≤ B + xs.length * B := by linarith
      _ = (x :: xs).length * B := by
        rw [List.length_cons]
        push_cast
        ring

theorem bytes_to_symbols_row_length (bps nc : ℕ) (data : List ℕ) :
    ∀ row ∈ bytes_to_symbols bps nc data, row.length = nc := by
  intro row hrow
  unfold bytes_to_symbols at hrow
  obtain ⟨s, hs, rfl⟩ := List.mem_map.mp hrow
  rw [List.length_map, List.length_range]

theorem amp_sin_bound (a θ : ℝ) (h0 : 0 ≤ a) (h1 : a ≤ 1) :
    |a * Real.sin θ| ≤ 1 := by
  rw [abs_mul]
  have hsin : |Real.sin θ| ≤ 1 :=
    abs_le.mpr ⟨Real.neg_one_le_sin θ, Real.sin_le_one θ⟩
  have habs : |a| ≤ 1 := abs_le.mpr ⟨by linarith, h1⟩
  calc |a| * |Real.sin θ| ≤ 1 * 1 :=
      mul_le_mul habs hsin (abs_nonneg _) (by norm_num)
    _ = 1 := by norm_num

theorem encode_symbol_bounded (h : FrequencyHopper) (f a p : ℝ) (i : ℕ)
    (ha0 : 0 ≤ a) (ha1 : a ≤ 1) (out : List ℝ)
    (hok : encode_symbol h f a p i = .ok out) :
    ∀ x ∈ out, |x| ≤ 1 := by
  unfold encode_symbol at hok
  cases hg : get_hop_freq h i with
  | none => rw [hg] at hok; cases hok
  | some c =>
    simp only [hg] at hok
    split_ifs at hok
    simp only [Except.ok.injEq] at hok
    subst hok
    intro x hx
    obtain ⟨j, hj, rfl⟩ := List.mem_map.mp hx
    exact amp_sin_bound a _ ha0 ha1

theorem encode_message_go_bounded (h : FrequencyHopper) :
    ∀ (symbols : List (ℝ × ℝ × ℝ)) (start : ℕ) (out : List ℝ),
      (∀ t ∈ symbols, 0 ≤ t.2.1 ∧ t.2.1 ≤ 1) →
      encode_message_go h symbols start = .ok out →
      ∀ x ∈ out, |x| ≤ 1 := by
  intro symbols
  induction symbols with
  | nil =>
    intro start out hamp hok x hx
    unfold encode_message_go at hok
    cases hok
    simp at hx
  | cons hd tl ih =>
    obtain ⟨f, a, p⟩ := hd
    intro start out hamp hok x hx
    unfold encode_message_go at hok
    cases hs : encode_symbol h f a p start with
    | error e => rw [hs] at hok; cases hok
    | ok samples =>
      rw [hs] at hok
      cases hr : encode_message_go h tl (start + 1) with
      | error e => rw [hr] at hok; cases hok
      | ok others =>
        rw [hr] at hok
        simp only [Except.ok.injEq] at hok
        subst hok
        rcases List.mem_append.mp hx with hx1 | hx2
        · exact encode_symbol_bounded h f a p start
            (hamp (f, a, p) (by simp)).1 (hamp (f, a, p) (by simp)).2
            samples hs x hx1
        · exact ih (start + 1) others (fun t ht => hamp t (by simp [ht])) hr x hx2

/-- C6 (amended): every sample of a successful multi-carrier encode lies in
`[-sqrt 2, sqrt 2]` (not `[-1, 1]`), and every sample of a successful
spread-spectrum encode of symbols whose amplitudes lie in `[0, 1]` lies in
`[-1, 1]`. -/
theorem C6_encode_sample_bounds :
    (∀ (o : UltrasonicOFDM) (data : List ℕ) (out : List ℝ),
        UltrasonicOFDM.encode o data = .ok out →
        ∀ x ∈ out, |x| ≤ Real.sqrt 2) ∧
    (∀ (h : FrequencyHopper) (symbols : List (ℝ × ℝ × ℝ)) (start : ℕ)
        (out : List ℝ × HopMetadata),
        (∀ t ∈ symbols, 0 ≤ t.2.1 ∧ t.2.1 ≤ 1) →
        encode_message h symbols start = .ok out →
        ∀ x ∈ out.1, |x| ≤ 1) := by
  constructor
  · intro o data out hok x hx
    unfold UltrasonicOFDM.encode at hok
    by_cases h0 : o.bits_per_symbol * o.num_carriers = 0
    · rw [if_pos h0] at hok
      cases hok
    · rw [if_neg h0] at hok
      have hnc : o.num_carriers ≠ 0 := by
        intro hz
        exact h0 (by rw [hz, Nat.mul_zero])
      have hncR : (0:ℝ) < (o.num_carriers : ℝ) := by
        exact_mod_cast Nat.pos_of_ne_zero hnc
      simp only [Except.ok.injEq] at hok
      subst hok
      obtain ⟨j, hj, rfl⟩ := List.mem_map.mp hx
      split_ifs with hcond
      · set syms := bytes_to_symbols o.bits_per_symbol o.num_carriers data
          with hsyms
        set P := (pyInt ((o.sample_rate : ℚ) * SYMBOL_DURATION)).toNat +
          (pyInt ((o.sample_rate : ℚ) * GUARD_INTERVAL)).toNat with hP
        set row := syms.getD (j / P) [] with hrowdef
        have hrowmem : row ∈ syms := by
          rw [hrowdef, List.getD_eq_getElem?_getD,
            List.getElem?_eq_getElem hcond.1]
          exact List.getElem_mem _
        have hrowlen : row.length = o.num_carriers :=
          bytes_to_symbols_row_length o.bits_per_symbol o.num_carriers data
            row hrowmem
        refine le_trans (list_sum_abs_le (Real.sqrt 2 / (o.num_carriers : ℝ))
          _ ?_) ?_
        · intro y hy
          obtain ⟨q, hq, rfl⟩ := List.mem_map.mp hy
          rw [abs_div, abs_of_nonneg hncR.le]
          gcongr
          exact iq_term_bound _ _ _ (qam_normSq_le_two o.modulation q.2)
        · rw [List.length_map, List.enum_length, hrowlen]
          rw [mul_div_assoc']
          rw [mul_div_cancel_left₀ _ (ne_of_gt hncR)]
      · simp [Real.sqrt_nonneg]
  · intro h symbols start out hamp hok
    unfold encode_message at hok
    cases hg : encode_message_go h symbols start with
    | error e => rw [hg] at hok; cases hok
    | ok all =>
      rw [hg] at hok
      simp only [Except.ok.injEq] at hok
      subst hok
      exact encode_message_go_bounded h symbols start all hamp hg


theorem qam_16_corner : qam_constellation "16QAM" 15 = (1, 1) := by
  unfold qam_constellation
  rw [if_neg (by simp), if_neg (by simp), if_pos rfl,
    show (15 : ℕ) &&& 3 = 3 from by decide,
    show (15 : ℕ) >>> 2 &&& 3 = 3 from by decide]
  norm_num

theorem ofdm16_encode_nil : UltrasonicOFDM.encode ofdm16 [] = .ok [] := by
  unfold UltrasonicOFDM.encode
  rw [if_neg (by decide)]
  rw [show bytes_to_symbols ofdm16.bits_per_symbol ofdm16.num_carriers [] = []
    from by decide]
  norm_num [pyInt]

theorem message_nil_eval :
    encode_message hopper10ms [] 0 = .ok ([], ⟨0, 0, 0, 0, 0⟩) := by
  unfold encode_message encode_message_go
  norm_num

/-- C6 witness: the theorem instantiated on an empty payload and an empty
symbol list. -/
theorem C6_encode_sample_bounds_witness :
    (UltrasonicOFDM.encode ofdm16 [] = .ok []) ∧
    (∀ x ∈ ([] : List ℝ), |x| ≤ Real.sqrt 2) ∧
    (∀ t ∈ ([] : List (ℝ × ℝ × ℝ)), 0 ≤ t.2.1 ∧ t.2.1 ≤ 1) ∧
    (encode_message hopper10ms [] 0 = .ok ([], ⟨0, 0, 0, 0, 0⟩)) ∧
    (∀ x ∈ (([], ⟨0, 0, 0, 0, 0⟩) : List ℝ × HopMetadata).1, |x| ≤ 1) :=
  ⟨ofdm16_encode_nil,
   C6_encode_sample_bounds.1 ofdm16 [] [] ofdm16_encode_nil,
   by simp,
   message_nil_eval,
   C6_encode_sample_bounds.2 hopper10ms [] 0 ([], ⟨0, 0, 0, 0, 0⟩) (by simp) message_nil_eval⟩

set_option maxRecDepth 4000 in
/-- C6 counterexample: for the constructed one-carrier 16-QAM encoder at a
200 kHz sample rate, sample 1 of the encode of the payload `[15]` is
exactly `sqrt 2 > 1`, so multi-carrier samples do not lie in `[-1, 1]`. -/
theorem C6_sample_exceeds_one_counterexample :
    ofdmInit 200000 1 "16QAM" = .ok ofdm16 ∧
    (UltrasonicOFDM.encode ofdm16 [15]).map (fun l => l.get? 1) =
      .ok (some (Real.sqrt 2)) ∧
    1 < Real.sqrt 2 := by
  refine ⟨?_, ?_, ?_⟩
  · unfold ofdmInit QAM_LEVELS ofdm16
    rw [show (if "16QAM" = "BPSK" then some 2
        else if "16QAM" = "QPSK" then some 4
        else if "16QAM" = "16QAM" then some 16
        else if "16QAM" = "64QAM" then some 64 else none) = some 16
      from by simp]
    simp only [Except.ok.injEq, UltrasonicOFDM.mk.injEq]
    refine ⟨trivial, trivial, trivial, by simp [Nat.log2], ?_⟩
    rw [show List.range 1 = [0] from rfl]
    norm_num [OFDM_MIN_FREQ]
  · unfold UltrasonicOFDM.encode
    rw [if_neg (by decide)]
    rw [show bytes_to_symbols ofdm16.bits_per_symbol ofdm16.num_carriers [15] =
      [[15], [0]] from by decide]
    simp only [Except.map, Except.ok.injEq]
    have hss : (pyInt ((ofdm16.sample_rate : ℚ) * SYMBOL_DURATION)).toNat = 200 := by
      rw [pyInt_of_nonneg (by norm_num [ofdm16, SYMBOL_DURATION])]
      norm_num [ofdm16, SYMBOL_DURATION]
      rfl
    have hgs : (pyInt ((ofdm16.sample_rate : ℚ) * GUARD_INTERVAL)).toNat = 40 := by
      rw [pyInt_of_nonneg (by norm_num [ofdm16, GUARD_INTERVAL])]
      norm_num [ofdm16, GUARD_INTERVAL]
      rfl
    have hns : (pyInt ((ofdm16.sample_rate : ℚ) *
        ((([[15], [0]] : List (List ℕ)).length : ℚ) *
          (SYMBOL_DURATION + GUARD_INTERVAL)))).toNat = 480 := by
      rw [pyInt_of_nonneg (by norm_num [ofdm16, SYMBOL_DURATION, GUARD_INTERVAL])]
      norm_num [ofdm16, SYMBOL_DURATION, GUARD_INTERVAL]
      rfl
    rw [hss, hgs, hns]
    rw [List.get?_eq_getElem?, List.getElem?_map, List.getElem?_range (by norm_num)]
    simp only [Option.map_some', Option.some.injEq]
    norm_num
    rw [show ofdm16.modulation = "16QAM" from rfl, qam_16_corner,
      show (ofdm16.carrier_freqs[0]?.getD 0) = (25000 : ℚ) from rfl,
      show ofdm16.num_carriers = 1 from rfl,
      show ofdm16.sample_rate = 200000 from rfl]
    have hθ : 2 * Real.pi * ((25000 : ℚ) : ℝ) * (((200000 : ℕ) : ℝ))⁻¹ =
        Real.pi / 4 := by
      push_cast
      ring
    rw [hθ]
    norm_num [Real.cos_pi_div_four, Real.sin_pi_div_four]
  · rw [show (1:ℝ) = Real.sqrt 1 from (Real.sqrt_one).symm]
    exact Real.sqrt_lt_sqrt (by norm_num) (by norm_num)

/-- C7 (code behaviour): `decode_symbol` returns the hop carrier frequency
unconditionally as the recovered frequency, for EVERY input waveform — the
placeholder the specification flags as a known gap; no instantaneous-frequency
estimation exists in the source. -/
theorem C7_decode_returns_carrier_unconditionally (h : FrequencyHopper) (samples : List ℝ) (hop_index : ℕ)
    (carrier : ℚ) (hc : get_hop_freq h hop_index = some carrier) :
    (decode_symbol h samples hop_index).map (fun r => r.1) =
      .ok ((carrier : ℚ) : ℝ) := by
  unfold decode_symbol
  rw [hc]
  rfl

/-- C7 witness: decoding any window on the one-channel hopper returns the
carrier 20000 regardless of the waveform content. -/
theorem C7_decode_returns_carrier_unconditionally_witness :
    get_hop_freq hopper10ms 0 = some 20000 ∧
    (decode_symbol hopper10ms [] 0).map (fun r => r.1) =
      .ok (((20000 : ℚ) : ℚ) : ℝ) :=
  ⟨rfl, C7_decode_returns_carrier_unconditionally hopper10ms [] 0 20000 rfl⟩

/-- C8 (amended): `calculate_stats` has no `ConfigError` guard.  For a
nonzero sample rate and nonempty sample list it returns
`bitrate = payload_bits / duration` (stored truncated to `int` in
`bitrate_bps`) and `efficiency = bitrate / OFDM_BANDWIDTH` with the bandwidth
fixed at 20000; an empty sample list or a zero sample rate raises
`ZeroDivisionError`. -/
theorem C8_calculate_stats_behavior :
    (∀ (o : UltrasonicOFDM) (data : List ℕ) (samples : List ℝ),
        o.sample_rate ≠ 0 → samples ≠ [] →
        calculate_stats o data samples = .ok
          ⟨data.length, data.length, 1,
           (samples.length : ℚ) / (o.sample_rate : ℚ),
           pyInt ((data.length * 8 : ℚ) /
             ((samples.length : ℚ) / (o.sample_rate : ℚ))),
           ((data.length * 8 : ℚ) /
             ((samples.length : ℚ) / (o.sample_rate : ℚ))) / OFDM_BANDWIDTH⟩) ∧
    (∀ (o : UltrasonicOFDM) (data : List ℕ) (samples : List ℝ),
        o.sample_rate = 0 ∨ samples = [] →
        calculate_stats o data samples = .error .zeroDivision) := by
  constructor
  · intro o data samples hrate hsamp
    unfold calculate_stats
    have hlen : (samples.length : ℚ) ≠ 0 :=
      Nat.cast_ne_zero.mpr (by simpa [List.length_eq_zero] using hsamp)
    have hrq : (o.sample_rate : ℚ) ≠ 0 := Nat.cast_ne_zero.mpr hrate
    rw [if_neg hrate, if_neg (div_ne_zero hlen hrq)]
  · intro o data samples hcase
    unfold calculate_stats
    rcases hcase with h0 | hnil
    · rw [if_pos h0]
    · subst hnil
      by_cases h0 : o.sample_rate = 0
      · rw [if_pos h0]
      · rw [if_neg h0, if_pos (by simp)]

/-- C8 counterexample: an empty sample list (zero duration) raises
`ZeroDivisionError`, not the `ConfigError` the claim names. -/
theorem C8_empty_waveform_zero_division_counterexample :
    calculate_stats ofdm16 [0] [] = .error .zeroDivision ∧
    PyError.zeroDivision ≠ PyError.configError := by
  constructor
  · unfold calculate_stats
    rw [if_neg (by decide), if_pos (by simp)]
  · decide

/-- C8 witness: the success branch instantiated on a one-byte payload and a
one-sample waveform. -/
theorem C8_calculate_stats_behavior_witness :
    ofdm16.sample_rate ≠ 0 ∧ ([(0:ℝ)] : List ℝ) ≠ [] ∧
    calculate_stats ofdm16 [65] [(0:ℝ)] = .ok
      ⟨([65] : List ℕ).length, ([65] : List ℕ).length, 1,
       (([(0:ℝ)] : List ℝ).length : ℚ) / (ofdm16.sample_rate : ℚ),
       pyInt (((([65] : List ℕ).length * 8 : ℚ)) /
         ((([(0:ℝ)] : List ℝ).length : ℚ) / (ofdm16.sample_rate : ℚ))),
       ((([65] : List ℕ).length * 8 : ℚ) /
         ((([(0:ℝ)] : List ℝ).length : ℚ) / (ofdm16.sample_rate : ℚ))) /
         OFDM_BANDWIDTH⟩ :=
  ⟨by decide, by simp, C8_calculate_stats_behavior.1 ofdm16 [65] [(0:ℝ)] (by decide) (by simp)⟩

theorem encode_symbol_zero_freq (h : FrequencyHopper) (a p : ℝ) (i : ℕ)
    (hns : num_dwell_samples h ≠ 0) :
    encode_symbol h 0 a p i = .error .zeroDivision := by
  unfold encode_symbol
  cases hg : get_hop_freq h i with
  | none => simp only [hg]
  | some c =>
    simp only [hg]
    rw [if_pos (show num_dwell_samples h ≠ 0 ∧ True from ⟨hns, trivial⟩)]

theorem encode_message_go_zero_freq (h : FrequencyHopper)
    (hns : num_dwell_samples h ≠ 0) :
    ∀ (symbols : List (ℝ × ℝ × ℝ)) (start : ℕ) (a p : ℝ),
      (0, a, p) ∈ symbols →
      ∀ out, encode_message_go h symbols start ≠ .ok out := by
  intro symbols
  induction symbols with
  | nil =>
    intro start a p hmem
    simp at hmem
  | cons hd tl ih =>
    obtain ⟨f, a2, p2⟩ := hd
    intro start a p hmem out hok
    unfold encode_message_go at hok
    cases hs : encode_symbol h f a2 p2 start with
    | error e => rw [hs] at hok; cases hok
    | ok samples =>
      rcases List.mem_cons.mp hmem with heq | hmem2
      · cases heq
        rw [encode_symbol_zero_freq h a2 p2 start hns] at hs
        cases hs
      · cases hr : encode_message_go h tl (start + 1) with
        | error e => rw [hs, hr] at hok; cases hok
        | ok others => exact absurd hr (ih (start + 1) a p hmem2 others)

/-- C10 (amended): whenever the dwell window holds at least one sample,
encoding a symbol with modulating frequency 0 raises `ZeroDivisionError`
(the FM phase term divides the deviation by the modulating frequency), and
`encode_message` never succeeds on a symbol list containing such a symbol. -/
theorem C10_zero_modulating_freq_division :
    (∀ (h : FrequencyHopper) (a p : ℝ) (hop_index : ℕ),
        num_dwell_samples h ≠ 0 →
        encode_symbol h 0 a p hop_index = .error .zeroDivision) ∧
    (∀ (h : FrequencyHopper) (symbols : List (ℝ × ℝ × ℝ)) (start : ℕ)
        (a p : ℝ),
        num_dwell_samples h ≠ 0 → (0, a, p) ∈ symbols →
        ∀ out, encode_message h symbols start ≠ .ok out) := by
  constructor
  · intro h a p i hns
    exact encode_symbol_zero_freq h a p i hns
  · intro h symbols start a p hns hmem out hok
    unfold encode_message at hok
    cases hg : encode_message_go h symbols start with
    | error e => rw [hg] at hok; cases hok
    | ok all => exact absurd hg (encode_message_go_zero_freq h hns symbols start a p hmem all)

/-- C10 witness: the theorem instantiated on a hopper with the default
10 ms dwell (1920 samples per window). -/
theorem C10_zero_modulating_freq_division_witness :
    num_dwell_samples hopper10ms ≠ 0 ∧
    encode_symbol hopper10ms 0 1 0 0 = .error .zeroDivision ∧
    ((0:ℝ), (1:ℝ), (0:ℝ)) ∈ ([((0:ℝ), (1:ℝ), (0:ℝ))] : List (ℝ × ℝ × ℝ)) ∧
    (∀ out, encode_message hopper10ms [((0:ℝ), (1:ℝ), (0:ℝ))] 0 ≠ .ok out) := by
  have hns : num_dwell_samples hopper10ms ≠ 0 := by
    unfold num_dwell_samples
    rw [show hopper10ms.dwell_time_sec = 1 / 100 from rfl,
      pyInt_of_nonneg (by norm_num [hopper10ms])]
    norm_num [hopper10ms]
  exact ⟨hns, C10_zero_modulating_freq_division.1 hopper10ms 1 0 0 hns, by simp,
    C10_zero_modulating_freq_division.2 hopper10ms [((0:ℝ), (1:ℝ), (0:ℝ))] 0 1 0 hns (by simp)⟩

theorem pyInt1ch_eval :
    pyInt ((((20000:ℚ), (20100:ℚ)).2 - ((20000:ℚ), (20100:ℚ)).1) / 100) = 1 := by
  rw [pyInt_of_nonneg (by norm_num)]
  norm_num

theorem grid1_eval : channel_grid (20000, 20100) 100 = [20000] := by
  unfold channel_grid
  rw [show (pyInt ((((20000:ℚ), (20100:ℚ)).2 - ((20000:ℚ), (20100:ℚ)).1) /
      100)).toNat = 1 from by
    rw [pyInt1ch_eval]
    rfl]
  simp [List.range_succ]

set_option maxRecDepth 8000 in
theorem key1_1ch_table :
    generate_hop_table [1] (20000, 20100) 100 = .ok [20000] := by
  unfold generate_hop_table
  rw [if_neg (by norm_num : ¬(100:ℚ) = 0), grid1_eval]
  simp only [fisherYatesGo, List.eraseIdx]
  norm_num [Nat.mod_one]

/-- C10 counterexample: with `dwell_time_ms = 0` the dwell window is empty,
the division never executes, and `encode_symbol` at modulating frequency 0
returns an empty window successfully — so the unamended claim (raises
WHENEVER the frequency is 0) is false. -/
theorem C10_zero_dwell_no_division_counterexample :
    fhInit (some [1]) [] (20000, 20100) 0 100 192000 = .ok hopperD0 ∧
    encode_symbol hopperD0 0 1 0 0 = .ok [] := by
  have hns : num_dwell_samples hopperD0 = 0 := by
    unfold num_dwell_samples
    rw [show hopperD0.dwell_time_sec = 0 from rfl]
    norm_num [pyInt, hopperD0]
  constructor
  · simp only [fhInit]
    rw [show (if ([1] : List ℕ) = [] then ([] : List ℕ) else [1]) = [1] from rfl]
    rw [key1_1ch_table]
    norm_num [hopperD0]
  · have hg : get_hop_freq hopperD0 0 = some 20000 := rfl
    unfold encode_symbol
    simp only [hg]
    rw [if_neg (by simp [hns])]
    rw [hns]
    simp
